import Mathlib

set_option maxRecDepth 4000

namespace URScript

/-- Characters of a piece of source text; the embedding works over explicit
character lists so that every JavaScript string operation is modelled
explicitly. -/
abbrev Str := List Char

/-- JavaScript `\w` word characters: ASCII letters, digits and underscore. -/
def isWordChar (c : Char) : Bool :=
  c.isAlpha || c.isDigit || c = '_'

/-- JavaScript `\s` whitespace characters (the ones occurring in script text). -/
def isWsChar (c : Char) : Bool :=
  c = ' ' || c = '\t' || c = '\n' || c = '\r'

/-- Leading-whitespace removal (the first half of `String.prototype.trim`). -/
def trimL (s : Str) : Str := s.dropWhile isWsChar

/-- Trailing-whitespace removal (the second half of `String.prototype.trim`). -/
def trimR (s : Str) : Str := (trimL s.reverse).reverse

/-- `String.prototype.trim`. -/
def trim (s : Str) : Str := trimR (trimL s)

/-- `String.prototype.split` with a single-character separator: split at every
occurrence, keeping empty segments (`"a,,b" -> ["a","","b"]`). -/
def splitOnChar (c : Char) : Str → List Str
  | [] => [[]]
  | x :: xs =>
    match splitOnChar c xs with
    | [] => [[]]
    | h :: t => if x = c then [] :: h :: t else (x :: h) :: t

/-- `Array.prototype.join` with an arbitrary separator string. -/
def joinWith (sep : Str) : List Str → Str
  | [] => []
  | [t] => t
  | t :: ts => t ++ sep ++ joinWith sep ts

/-- `leads p s` holds when `p` is an initial segment of `s`. -/
def leads : Str → Str → Bool
  | [], _ => true
  | _ :: _, [] => false
  | p :: ps, s :: ss => p = s && leads ps ss

/-- `String.prototype.replace` with a plain-string pattern: replace the first
occurrence of `pat` by `repl`, or return the string unchanged. -/
def replaceFirst (pat repl : Str) : Str → Str
  | [] => if leads pat [] then repl else []
  | x :: xs =>
    if leads pat (x :: xs) then repl ++ (x :: xs).drop pat.length
    else x :: replaceFirst pat repl xs

/-- `RegExp.prototype.test` for a plain-text pattern (`/global/.test(s)` is a
containment test, anywhere in the string). -/
def containsSub (pat : Str) : Str → Bool
  | [] => leads pat []
  | x :: xs => leads pat (x :: xs) || containsSub pat xs

/-- `endsWithStr suf s` models `String.prototype.endsWith`. -/
def endsWithStr (suf s : Str) : Bool := leads suf.reverse s.reverse

/-- `String.prototype.indexOf(ch, from)` with JavaScript semantics: the start
index is clamped to `[0, length]`, and the result is `-1` when absent. -/
def indexOfFrom (ch : Char) (s : Str) (start : Int) : Int :=
  let start' := min (max start 0) (s.length : Int)
  match (s.drop start'.toNat).findIdx? (· = ch) with
  | some i => start' + i
  | none => -1

/-- The substring of `s` from index `i` (inclusive) to `e` (exclusive). -/
def extract (s : Str) (i e : Nat) : Str := (s.drop i).take (e - i)

/-- Number of occurrences of a character in a string. -/
def countChar (c : Char) (s : Str) : Nat := (s.filter (· = c)).length

/-- Word boundary `\b` at position `i` when the pattern continues with a word
character there. -/
def boundaryAt (s : Str) (i : Nat) : Bool :=
  i == 0 || !(isWordChar (s.getD (i - 1) ' '))

/-- Index of the first `'\n'` at or after `j` (the end of `.*` without the `s`
flag), or the length of the string. -/
def lineEndFrom (s : Str) (j : Nat) : Nat :=
  match (s.drop j).findIdx? (· = '\n') with
  | some k => j + k
  | none => s.length

/-- The three keywords of the declaration pattern alternation. -/
def declKeywords : List Str := ["def".toList, "thread".toList, "global".toList]

/-- The keyword list of the signature-help file scan, whose pattern is
`\b(def)\s+...` and omits `thread` and `global`. -/
def declKeywordDefOnly : List Str := ["def".toList]

/-- One attempt of the declaration pattern
`\b(<kws alternation>)\s+<keyword>.*(\(.*\):)*` at position `i` of `s`: when
it matches, the end position (the match runs to the end of the line, the
trailing optional group always matching empty) and the alternative that
matched.  `keyword` is an identifier (word characters), as at every call
site of the source. -/
def declHeadAt (kws : List Str) (keyword : Str) (s : Str) (i : Nat) : Option (Nat × Str) :=
  if boundaryAt s i then
    kws.findSome? fun kw =>
      if leads kw (s.drop i) then
        let j := i + kw.length
        let r := ((s.drop j).takeWhile isWsChar).length
        if 1 ≤ r && leads keyword (s.drop (j + r)) then
          some (lineEndFrom s (j + r + keyword.length), kw)
        else none
      else none
  else none

/-- `RegExp.prototype.exec` of the declaration pattern with the `g` flag: scan
from the regex's `lastIndex` `li` for the first position where the pattern
matches, returning (start, end, matched keyword). -/
def findDeclFrom (kws : List Str) (keyword : Str) (s : Str) (li : Nat) : Option (Nat × Nat × Str) :=
  (List.range' li (s.length + 1 - li)).findSome? fun i =>
    (declHeadAt kws keyword s i).map fun p => (i, p.1, p.2)

/-- One attempt of the name pattern `\b(?!def|thread|global)\w+` at `i`: end
position of the identifier when it matches. -/
def nameHeadAt (s : Str) (i : Nat) : Option Nat :=
  if boundaryAt s i
      && !(declKeywords.any fun kw => leads kw (s.drop i))
      && isWordChar (s.getD i ' ') then
    some (i + ((s.drop i).takeWhile isWordChar).length)
  else none

/-- `namePat.exec` scanning from `li` (the stateful `lastIndex` of the `g`
variant; the flagless top-level `namePat` always uses `li = 0`): returns
(start, end). -/
def findNameFrom (s : Str) (li : Nat) : Option (Nat × Nat) :=
  (List.range' li (s.length + 1 - li)).findSome? fun i =>
    (nameHeadAt s i).map fun e => (i, e)

/-- The matched text of the flagless `namePat.exec`: the first identifier of
the matched declaration that is not a reserved keyword. -/
def nameExec0 (s : Str) : Option Str :=
  (findNameFrom s 0).map fun p => extract s p.1 p.2

/-- The lazy group of `paramPat = /\((.*?)\)/` once an opening parenthesis with
a closing parenthesis on the same line has been found. -/
def takeTilClose : Str → Option Str
  | [] => none
  | ')' :: _ => some []
  | '\n' :: _ => none
  | c :: rest => (takeTilClose rest).map (c :: ·)

/-- `paramPat.exec(s)` projected to its first capture group: the text between
the first parenthesis pair of `s`. -/
def paramGroup : Str → Option Str
  | [] => none
  | '(' :: rest =>
    match takeTilClose rest with
    | some g => some g
    | none => paramGroup rest
  | _ :: rest => paramGroup rest

/-- Modelled from the spec: `isBlank` of `utilities/checkString.ts` (a utility
the source imports that is not under `src/`): a string is blank when it is
empty or whitespace only. -/
def isBlank (s : Str) : Bool := trim s == []

/-- Modelled from the spec: the recognized tokens of the type-normalization
table of `scriptmethod.ts` (not under `src/`); the spec's examples use
`number` and `bool` and require recognized tokens to round-trip. -/
def recognizedTypes : List Str :=
  ["bool".toList, "int".toList, "float".toList, "number".toList,
   "pose".toList, "string".toList, "array".toList]

/-- Modelled from the spec: `str2Type` of `scriptmethod.ts` (not under
`src/`): the second doc token is mapped through the type-normalization table
and unrecognized (or missing, or empty) tokens map to the untyped sentinel. -/
def str2Type (s? : Option Str) : Str :=
  match s? with
  | some t => if recognizedTypes.contains t then t else "None".toList
  | none => "None".toList

/-- Modelled from the spec: `type2Str` of `scriptmethod.ts` (not under
`src/`); on this representation a normalized type is already its display
string. -/
def type2Str (t : Str) : Str := t

/-- One parsed `@param` entry (the `MethodParameter` shape of
`scriptmethod.ts`). -/
structure MethodParameter where
  Label : Str
  Type' : Str
  Comment : Str
  Default : Str
deriving DecidableEq, Repr

/-- Modelled from the spec: the rendered per-parameter documentation of
`scriptmethod.ts` (not under `src/`); no theorem relies on its exact text. -/
def MethodParameter.Documentation (p : MethodParameter) : Str :=
  p.Type' ++ [' '] ++ p.Comment

/-- `parseDocParam`: split a whitespace-separated `@param` doc line into
label, type and comment. -/
def parseDocParam (line : Str) : MethodParameter :=
  let splitted := splitOnChar ' ' (trim (replaceFirst "@param".toList [] line))
  { Label := splitted.headD []
    Type' := type2Str (str2Type splitted.tail.head?)
    Comment := joinWith [' '] splitted.tail.tail
    Default := [] }

/-- The parsed `@returns` information. -/
structure DocReturn where
  ReturnType : Str
  Return : Str
deriving DecidableEq, Repr

/-- `parseDocReturn`: split a `@returns` doc line into type and comment; a
missing (or empty, hence falsy) line yields nothing. -/
def parseDocReturn (line? : Option Str) : Option DocReturn :=
  match line? with
  | none => none
  | some [] => none
  | some line =>
    let splitted := splitOnChar ' ' (trim (replaceFirst "@returns".toList [] line))
    some { ReturnType := type2Str (str2Type splitted.head?)
           Return := joinWith [' '] splitted.tail }

/-- The symbol descriptor built from a declaration and its documentation (the
`ScriptMethod` shape of `scriptmethod.ts`). -/
structure ScriptMethod where
  Name : Str
  ReturnType : Str
  Return : Str
  Deprecated : Str
  Comment : Str
  Parameters : List MethodParameter
deriving DecidableEq, Repr

/-- Modelled from the spec: `ScriptMethod.Label` of `scriptmethod.ts` (not
under `src/`): the display signature line; no theorem relies on its exact
text. -/
def ScriptMethod.Label (m : ScriptMethod) : Str :=
  m.Name ++ ['('] ++
    joinWith [',', ' '] (m.Parameters.map fun p => p.Label ++ [' ', ':', ' '] ++ p.Type') ++
    [')']

/-- Modelled from the spec: the rendered documentation payload of a
`ScriptMethod` (not under `src/`); no theorem relies on its exact text. -/
def ScriptMethod.Documentation (m : ScriptMethod) : Str := m.Comment

/-- The doc-comment sentinel line `###`. -/
def threeHash : Str := ['#', '#', '#']

/-- Greatest index strictly below `lines.length - 1` holding the sentinel
(the backward `for` loop of `findDoc`). -/
def docStartIndex (lines : List Str) : Option Nat :=
  (List.range (lines.length - 1)).reverse.find? fun i => lines.getD i [] == threeHash

/-- `findDoc`: when the window's last retained line is the closing sentinel
and an earlier sentinel exists, parse the lines strictly between them
(comment markers stripped, trimmed) into a `ScriptMethod`; otherwise no
documentation. -/
def findDoc (name : Str) (lines? : Option (List Str)) : Option ScriptMethod :=
  match lines? with
  | none => none
  | some lines =>
    if lines.getLast? == some threeHash then
      match docStartIndex lines with
      | none => none
      | some startIndex =>
        let endIndex := lines.length - 1
        let doc := ((lines.drop (startIndex + 1)).take (endIndex - (startIndex + 1))).map
          fun l => trim (l.filter fun c => !(c == '#'))
        let params := (doc.filter fun l => leads "@param".toList l).map parseDocParam
        let returns := parseDocReturn (doc.find? fun l => leads "@returns".toList l)
        let summary := joinWith [' ', ' ', '\n'] (doc.filter fun l => !(leads ['@'] l))
        some { Name := name
               ReturnType := match returns with | some r => r.ReturnType | none => "None".toList
               Return := match returns with | some r => r.Return | none => []
               Deprecated := []
               Comment := summary
               Parameters := params }
    else none

/-- One displayed parameter of a signature (vscode `ParameterInformation`). -/
structure ParameterInformation where
  label : Str
  documentation : Str
deriving DecidableEq, Repr

/-- One displayed signature (vscode `SignatureInformation`). -/
structure SignatureInformation where
  label : Str
  parameters : List ParameterInformation
deriving DecidableEq, Repr

/-- The signature-help payload (vscode `SignatureHelp`). -/
structure SignatureHelp where
  activeSignature : Nat
  activeParameter : Nat
  signatures : List SignatureInformation
deriving DecidableEq, Repr

/-- The signature payload built from one documented method (shared by
`parseSignature` and the `ScriptSignature` constructor, which are textually
identical in the source). -/
def sigHelpOfMethod (m : ScriptMethod) : SignatureHelp :=
  { activeSignature := 0
    activeParameter := 0
    signatures := [{ label := m.Label
                     parameters := m.Parameters.map fun p =>
                       { label := p.Label, documentation := p.Documentation } }] }

/-- `parseSignature`: build a signature-help payload from a declaration match,
but only when a documentation block was found in the retained window. -/
def parseSignature (matchResult : Option Str) (oldLines : Option (List Str)) : Option SignatureHelp :=
  match matchResult with
  | none => none
  | some step =>
    match nameExec0 step with
    | none => none
    | some name =>
      match findDoc name oldLines with
      | none => none
      | some doc => some (sigHelpOfMethod doc)

/-- One hover segment: a fenced code block or markdown prose. -/
inductive HoverPiece where
  | code (language value : Str)
  | md (value : Str)
deriving DecidableEq, Repr

/-- The hover payload (vscode `Hover`). -/
structure Hover where
  contents : List HoverPiece
deriving DecidableEq, Repr

/-- `parseHover`: build the hover payload of a matched declaration — a
code-styled head line (global/thread/documented signature/user-function
reconstruction) followed by the documentation when present. -/
def parseHover (matchResult : Option Str) (oldLines : Option (List Str)) : Option Hover :=
  match matchResult with
  | none => none
  | some step =>
    match nameExec0 step with
    | none => none
    | some name =>
      let doc := findDoc name oldLines
      let base :=
        if containsSub "global".toList step then
          [HoverPiece.code "urscript".toList ("global ".toList ++ name)]
        else if containsSub "thread".toList step then
          [HoverPiece.code "urscript".toList ("thread  ".toList ++ name)]
        else
          match doc with
          | some d => [HoverPiece.code "urscript".toList d.Label]
          | none =>
            [HoverPiece.md "*user function*".toList,
             HoverPiece.md (match paramGroup step with
               | some g =>
                 name ++ ['('] ++ joinWith [',', ' '] ((splitOnChar ',' g).map trim) ++ [')']
               | none => name ++ ['(', ')'])]
      match doc with
      | some d => some { contents := base ++ [HoverPiece.md d.Documentation] }
      | none => some { contents := base }

/-- The vscode completion-item kinds the source assigns. -/
inductive CompletionItemKind where
  | Variable
  | Function
deriving DecidableEq, Repr

/-- One completion entry (vscode `CompletionItem`); `snippet` records whether
`insertText` was a `SnippetString`. -/
structure CompletionItem where
  label : Str
  kind : CompletionItemKind
  detail : Str
  insertText : Str
  snippet : Bool
  documentation : Option Str
  commitCharacters : List Str
deriving DecidableEq, Repr

/-- The numbered snippet placeholders `$\x7bi:param\x7d` of the undocumented
auto-fill template. -/
def snippetPlaceholders (params : List Str) : List Str :=
  params.enum.map fun p =>
    ['$', Char.ofNat 123] ++ (Nat.repr (p.1 + 1)).toList ++ [':'] ++ p.2 ++ [Char.ofNat 125]

/-- The completion entry built for one matched declaration `value` with
identifier `name` and optional documentation `doc` (the item-construction
part of `parseCmpItem`'s `forEach` body). -/
def buildCmpItem (value name : Str) (doc : Option ScriptMethod) : CompletionItem :=
  let base : CompletionItem :=
    { label := name
      kind := CompletionItemKind.Function
      detail := []
      insertText := []
      snippet := false
      documentation := doc.map ScriptMethod.Documentation
      commitCharacters := ["\t".toList, " ".toList, "\n".toList] }
  if containsSub "global".toList value then
    { base with kind := CompletionItemKind.Variable
                insertText := name
                detail := "global ".toList ++ name }
  else if containsSub "thread".toList value then
    { base with kind := CompletionItemKind.Variable
                insertText := name ++ ['(', ')']
                detail := "thread ".toList ++ name }
  else
    match doc with
    | some d =>
      { base with detail := d.Label
                  insertText := d.Name
                  snippet := true
                  commitCharacters := base.commitCharacters ++ ["(".toList] }
    | none =>
      match paramGroup value with
      | some g =>
        if !(isBlank g) then
          let param := (splitOnChar ',' g).map trim
          { base with detail := name ++ ['('] ++ joinWith [',', ' '] param ++ [')']
                      insertText := name ++ ['('] ++
                        joinWith [',', ' '] (snippetPlaceholders param) ++ [')', '$', '0']
                      snippet := true }
        else
          { base with detail := name
                      insertText := name ++ "()$0".toList
                      snippet := true }
      | none =>
        { base with detail := name
                    insertText := name ++ "()$0".toList
                    snippet := true }

/-- The body of `parseCmpItem`'s `forEach` for one non-null element of the
exec array: extract the identifier, suppress duplicate labels, and append the
entry built from the declaration and its optional documentation. -/
def parseCmpItemElem (value : Str) (cmpItems : List CompletionItem) (oldLines : Option (List Str)) : List CompletionItem :=
  match nameExec0 value with
  | none => cmpItems
  | some name =>
    if cmpItems.any (fun cmp => cmp.label == name) then cmpItems
    else cmpItems ++ [buildCmpItem value name (findDoc name oldLines)]

/-- `parseCmpItem`: iterate the entries of one exec array (full match, keyword
group, always-undefined parameter group), accumulating completion items. -/
def parseCmpItem (matchResult : Option (List (Option Str))) (cmpItems : List CompletionItem) (oldLines : Option (List Str)) : List CompletionItem :=
  match matchResult with
  | none => cmpItems
  | some arr =>
    arr.foldl (fun acc v? =>
      match v? with
      | some v => parseCmpItemElem v acc oldLines
      | none => acc) cmpItems

/-- The exec array of one declaration match, as `parseCmpItem` receives it:
`[match[0], the matched keyword group, the never-matching optional group]`. -/
def declExecArray (s : Str) (i e : Nat) (kw : Str) : List (Option Str) :=
  [some (extract s i e), some kw, none]

/-- The loop of `getCompletionItemsFromText`: repeated stateful `exec` over the
whole text, feeding every match to `parseCmpItem` (no line window: `oldLines`
is `undefined` here). -/
def cmpTextGo (text keyword : Str) : Nat → Nat → List CompletionItem → List CompletionItem
  | 0, _, acc => acc
  | fuel + 1, li, acc =>
    match findDeclFrom declKeywords keyword text li with
    | none => acc
    | some (i, e, kw) =>
      cmpTextGo text keyword fuel e (parseCmpItem (some (declExecArray text i e kw)) acc none)

/-- `getCompletionItemsFromText`: sweep in-memory text for every declaration
and accumulate completion items. -/
def getCompletionItemsFromText (text keyword : Str) (cmpItems : List CompletionItem) : List CompletionItem :=
  cmpTextGo text keyword (text.length + 1) 0 cmpItems

/-- A modelled file system: an association from full file paths to contents;
a `none` content marks an unreadable file. -/
abbrev FileSys := List (Str × Option (List Str))

/-- Line numbering from `n` upward. -/
def numberFrom (n : Nat) : List Str → List (Nat × Str)
  | [] => []
  | l :: ls => (n, l) :: numberFrom (n + 1) ls

/-- Modelled from the spec: `ReadLinesSync` of `utilities/readLines.ts` (not
under `src/`): yield the (0-based line number, raw line) pairs of a readable
file; a missing or unreadable file simply yields no lines instead of
failing, so the surrounding scan proceeds. -/
def readLines (fs : FileSys) (fileName : Str) : List (Nat × Str) :=
  match fs.find? (fun e => e.1 == fileName) with
  | some (_, some ls) => numberFrom 0 ls
  | _ => []

/-- The shared trailing-window update of the three file drivers: evict the
oldest retained line once the buffer holds more than 20 lines, then append
the current line. -/
def windowPush (old : List Str) (cur : Str) : List Str :=
  (if old.length > 20 then old.tail else old) ++ [cur]

/-- The line loop of `getCompletionItemsFromFile`, threading the stateful
declaration regex (`lastIndex`), the trailing window and the accumulated
items; the final window is returned alongside the items. -/
def cmpFileGo (keyword : Str) : Nat → List Str → List CompletionItem → List (Nat × Str) → List CompletionItem × List Str
  | _, old, acc, [] => (acc, old)
  | li, old, acc, (_, ln) :: rest =>
    if ln == [] then cmpFileGo keyword li old acc rest
    else
      let cur := trim ln
      match findDeclFrom declKeywords keyword cur li with
      | some (i, e, kw) =>
        cmpFileGo keyword e (windowPush old cur)
          (parseCmpItem (some (declExecArray cur i e kw)) acc (some old)) rest
      | none =>
        cmpFileGo keyword 0 (windowPush old cur) (parseCmpItem none acc (some old)) rest

/-- `getCompletionItemsFromFile`: scan a file line by line, maintaining the
trailing window, and accumulate completion items. -/
def getCompletionItemsFromFile (fs : FileSys) (fileName keyword : Str) (cmpItems : List CompletionItem) : List CompletionItem :=
  (cmpFileGo keyword 0 [] cmpItems (readLines fs fileName)).1

/-- The line loop of `getHoverFromFile`: stop at the first hover built. -/
def hoverFileGo (keyword : Str) : Nat → List Str → List (Nat × Str) → Option Hover
  | _, _, [] => none
  | li, old, (_, ln) :: rest =>
    if ln == [] then hoverFileGo keyword li old rest
    else
      let cur := trim ln
      match findDeclFrom declKeywords keyword cur li with
      | some (i, e, _) =>
        match parseHover (some (extract cur i e)) (some old) with
        | some h => some h
        | none => hoverFileGo keyword e (windowPush old cur) rest
      | none => hoverFileGo keyword 0 (windowPush old cur) rest

/-- `getHoverFromFile`: scan one file for the first hoverable declaration of
the keyword. -/
def getHoverFromFile (fs : FileSys) (fileName keyword : Str) : Option Hover :=
  hoverFileGo keyword 0 [] (readLines fs fileName)

/-- A workspace folder: its path and the names of the files it contains. -/
structure WorkspaceFolder where
  fsPath : Str
  names : List Str
deriving DecidableEq, Repr

/-- The separator class of `explored.split(/.*[\/|\\]/)`: slash, pipe (a
literal alternative inside the character class) and backslash. -/
def sepChars : List Char := ['/', '|', '\\']

/-- `explored.split(/.*[\/|\\]/)[1]`: the basename after the last separator,
or `undefined` when the path holds no separator. -/
def exploredBase (explored : Str) : Option Str :=
  match explored.reverse.findIdx? (fun c => sepChars.contains c) with
  | some rk => some (explored.reverse.take rk).reverse
  | none => none

/-- The per-file filter of the workspace drivers: script extension, and skip
the file named like the explored document's basename. -/
def wsFileKeep (explored name : Str) : Bool :=
  endsWithStr ".script".toList name &&
    (match exploredBase explored with
     | none => true
     | some b => !(name == b))

/-- The full path `$\x7bworkspace.uri.fsPath\x7d\\$\x7bfile\x7d` of one kept
workspace file. -/
def fullPath (folder : WorkspaceFolder) (name : Str) : Str :=
  folder.fsPath ++ "\\".toList ++ name

/-- The filtered, fully-qualified file list of one workspace folder. -/
def wsFiles (folder : WorkspaceFolder) (explored : Str) : List Str :=
  (folder.names.filter (wsFileKeep explored)).map (fullPath folder)

/-- First non-empty result of a per-element lookup (the `break`-on-success
loops of the workspace drivers and of the folder iteration). -/
def firstSome (g : α → Option β) : List α → Option β
  | [] => none
  | a :: rest =>
    match g a with
    | some b => some b
    | none => firstSome g rest

/-- `getHoverFromWorkspace`: try every kept file of the folder in enumeration
order, stopping at the first hover. -/
def getHoverFromWorkspace (fs : FileSys) (folder : WorkspaceFolder) (keyword explored : Str) : Option Hover :=
  firstSome (fun file => getHoverFromFile fs file keyword) (wsFiles folder explored)

/-- One go-to-definition result (vscode `Location`): file, 0-based line, and
the `character` column taken from `nameReg.index`. -/
structure Location where
  uri : Str
  line : Nat
  character : Nat
deriving DecidableEq, Repr

/-- The line loop of `getLocationFromFile`: both the declaration regex and the
local name regex carry a `g` flag, so both `lastIndex` states persist across
lines; lines are not trimmed here. -/
def locFileGo (keyword fileName : Str) : Nat → Nat → List (Nat × Str) → List Location
  | _, _, [] => []
  | mli, nli, (no, ln) :: rest =>
    if ln == [] then locFileGo keyword fileName mli nli rest
    else
      match findDeclFrom declKeywords keyword ln mli with
      | some (i, e, _) =>
        match findNameFrom (extract ln i e) nli with
        | some (ns, ne) =>
          { uri := fileName, line := no, character := ns } :: locFileGo keyword fileName e ne rest
        | none => locFileGo keyword fileName e 0 rest
      | none => locFileGo keyword fileName 0 nli rest

/-- `getLocationFromFile`: collect every declaration location of the keyword
in one file. -/
def getLocationFromFile (fs : FileSys) (fileName keyword : Str) : List Location :=
  locFileGo keyword fileName 0 0 (readLines fs fileName)

/-- `getLocationFromWorkspace`: accumulate the locations of every kept file of
the folder, in enumeration order. -/
def getLocationFromWorkspace (fs : FileSys) (folder : WorkspaceFolder) (keyword explored : Str) : List Location :=
  (wsFiles folder explored).foldl (fun acc file => acc ++ getLocationFromFile fs file keyword) []

/-- The line loop of `getSignatureFromFile`: the pattern here matches `def`
declarations only; stop at the first signature built. -/
def sigFileGo (keyword : Str) : Nat → List Str → List (Nat × Str) → Option SignatureHelp
  | _, _, [] => none
  | li, old, (_, ln) :: rest =>
    if ln == [] then sigFileGo keyword li old rest
    else
      let cur := trim ln
      match findDeclFrom declKeywordDefOnly keyword cur li with
      | some (i, e, _) =>
        match parseSignature (some (extract cur i e)) (some old) with
        | some s => some s
        | none => sigFileGo keyword e (windowPush old cur) rest
      | none => sigFileGo keyword 0 (windowPush old cur) rest

/-- `getSignatureFromFile`: scan one file for the first documented `def`
declaration of the keyword. -/
def getSignatureFromFile (fs : FileSys) (fileName keyword : Str) : Option SignatureHelp :=
  sigFileGo keyword 0 [] (readLines fs fileName)

/-- `getSignatureFromWorkspace`: try every kept file of the folder in
enumeration order, stopping at the first signature. -/
def getSignatureFromWorkspace (fs : FileSys) (folder : WorkspaceFolder) (keyword explored : Str) : Option SignatureHelp :=
  firstSome (fun file => getSignatureFromFile fs file keyword) (wsFiles folder explored)

/-- The text document the provider reads: its lines and its file name. -/
structure Document where
  lines : List Str
  fileName : Str
deriving DecidableEq, Repr

/-- Modelled from the spec: `getSignatureFromDocument` of `codeParser.ts` (the
provider imports it but the function is not under `src/`): search the current
document's text line by line like the file driver, maintaining the trailing
window, and return the first signature built. -/
def getSignatureFromDocument (doc : Document) (keyword : Str) : Option SignatureHelp :=
  sigFileGo keyword 0 [] (numberFrom 0 doc.lines)

/-- A preloaded built-in catalog entry (`ScriptSignature`): the method name
and its precomputed signature payload. -/
structure ScriptSignature where
  Name : Str
  Item : SignatureHelp
deriving DecidableEq, Repr

/-- The `ScriptSignature` constructor: precompute one built-in method's
signature-help payload. -/
def ScriptSignature.ofMethod (mthd : ScriptMethod) : ScriptSignature :=
  { Name := mthd.Name, Item := sigHelpOfMethod mthd }

/-- The maximal word-character run around index `i` of a line. -/
def runAround (line : Str) (i : Nat) : Nat × Nat :=
  (i - ((line.take i).reverse.takeWhile isWordChar).length,
   i + ((line.drop i).takeWhile isWordChar).length)

/-- The editor's `getWordRangeAtPosition` on one line: the word-character run
containing the position (a position just after a word counts as inside it). -/
def wordRangeAt (line : Str) (p : Nat) : Option (Nat × Nat) :=
  if isWordChar (line.getD p ' ') then some (runAround line p)
  else if 0 < p && isWordChar (line.getD (p - 1) ' ') then some (runAround line (p - 1))
  else none

/-- The retrigger parameter text: `line.text.substr(parLeft + 1,
position.character - parLeft - 1)`, the characters between the opening
parenthesis and the cursor. -/
def retriggerParaStr (line : Str) (posChar : Nat) : Str :=
  let parLeft := indexOfFrom '(' line 0
  (line.drop (parLeft + 1).toNat).take ((posChar : Int) - parLeft - 1).toNat

/-- `provideSignatureHelp`: the interactive entry point.  The editor state is
passed explicitly (catalog, optional workspace folder list, file system,
document, cursor, retrigger flag and cached signature help); every caught
exception path (bad line, negative position) returns `none`. -/
def provideSignatureHelp (sigs : List ScriptSignature) (folders : Option (List WorkspaceFolder))
    (fs : FileSys) (doc : Document) (posLine posChar : Nat)
    (isRetrigger : Bool) (cached : Option SignatureHelp) : Option SignatureHelp :=
  match doc.lines.get? posLine with
  | none => none
  | some line =>
    let parLeft := indexOfFrom '(' line 0
    let parRight := indexOfFrom ')' line parLeft
    if (posChar : Int) < parLeft || parRight < (posChar : Int) then none
    else
      match isRetrigger, cached with
      | true, some h0 =>
        some { h0 with activeParameter := (splitOnChar ',' (retriggerParaStr line posChar)).length - 1 }
      | _, _ =>
        if parLeft - 1 < 0 then none
        else
          let word :=
            match wordRangeAt line (parLeft - 1).toNat with
            | some r => extract line r.1 r.2
            | none => joinWith ['\n'] doc.lines
          match sigs.find? (fun sig => sig.Name == word) with
          | some matched => some { matched.Item with activeParameter := 0, activeSignature := 0 }
          | none =>
            match getSignatureFromDocument doc word with
            | some s => some s
            | none =>
              match folders with
              | some fl => firstSome (fun fold => getSignatureFromWorkspace fs fold word doc.fileName) fl
              | none => none

/-- Re-serialization of a parsed `@param` entry following the doc-comment
syntax contract `@param <name> <type> <free-text comment>`. -/
def serializeParam (p : MethodParameter) : Str :=
  "@param ".toList ++
    joinWith [' '] ([p.Label, p.Type'] ++ if p.Comment == [] then [] else [p.Comment])

/-- Re-serialization of a parsed `@returns` entry following the doc-comment
syntax contract `@returns <type> <free-text comment>`. -/
def serializeReturn (r : DocReturn) : Str :=
  "@returns ".toList ++
    joinWith [' '] ([r.ReturnType] ++ if r.Return == [] then [] else [r.Return])

/-- Twenty-five pairwise distinct non-empty trim-fixed demonstration lines. -/
def c1Lines : List Str := (List.range 25).map fun i => 'L' :: (Nat.repr (i + 1)).toList

/-- A text declaring `foo` twice, for the duplicate-suppression scenario. -/
def dupText : Str := "def foo(a, b):\ndef foo(a, b):".toList

/-- The doc-comment block of the spec's running example. -/
def docBlockAdd : List Str :=
  ["###".toList, "# adds two numbers".toList, "# @param a number first".toList,
   "# @param b number second".toList, "# @returns number sum".toList, "###".toList]

theorem leads_append (p r : Str) : leads p (p ++ r) = true := by
  induction p with
  | nil => rfl
  | cons a ps ih => simp [leads, ih]

theorem replaceFirst_append (pat repl r : Str) :
    replaceFirst pat repl (pat ++ r) = repl ++ r := by
  cases pat with
  | nil =>
    cases r with
    | nil => simp [replaceFirst, leads]
    | cons x xs => simp [replaceFirst, leads]
  | cons p ps =>
    show replaceFirst (p :: ps) repl (p :: (ps ++ r)) = repl ++ r
    have hc : leads (p :: ps) (p :: (ps ++ r)) = true := leads_append (p :: ps) r
    have hd : (p :: (ps ++ r)).drop (p :: ps).length = r := List.drop_left (p :: ps) r
    simp only [replaceFirst, hc, if_true, hd]

theorem splitOnChar_ne_nil (c : Char) (s : Str) : splitOnChar c s ≠ [] := by
  induction s with
  | nil => simp [splitOnChar]
  | cons x xs ih =>
    rw [splitOnChar]
    cases h : splitOnChar c xs with
    | nil => exact absurd h ih
    | cons hd tl => by_cases hx : x = c <;> simp [hx]

theorem splitOnChar_length (c : Char) (s : Str) :
    (splitOnChar c s).length = countChar c s + 1 := by
  induction s with
  | nil => simp [splitOnChar, countChar]
  | cons x xs ih =>
    rw [splitOnChar]
    cases h : splitOnChar c xs with
    | nil => exact absurd h (splitOnChar_ne_nil c xs)
    | cons hd tl =>
      rw [h] at ih
      by_cases hx : x = c <;> simp [hx, countChar, List.filter_cons] at ih ⊢ <;> omega

theorem splitOnChar_no_sep (c : Char) (t : Str) (h : ∀ a ∈ t, ¬ a = c) :
    splitOnChar c t = [t] := by
  induction t with
  | nil => rfl
  | cons a t' ih =>
    rw [splitOnChar, ih fun b hb => h b (List.mem_cons_of_mem _ hb)]
    simp [h a (List.mem_cons_self a t')]

theorem splitOnChar_sep (c : Char) (t r : Str) (h : ∀ a ∈ t, ¬ a = c) :
    splitOnChar c (t ++ c :: r) = t :: splitOnChar c r := by
  induction t with
  | nil =>
    show splitOnChar c (c :: r) = [] :: splitOnChar c r
    rw [splitOnChar]
    cases hr : splitOnChar c r with
    | nil => exact absurd hr (splitOnChar_ne_nil c r)
    | cons hd tl => simp
  | cons a t' ih =>
    show splitOnChar c (a :: (t' ++ c :: r)) = (a :: t') :: splitOnChar c r
    rw [splitOnChar, ih fun b hb => h b (List.mem_cons_of_mem _ hb)]
    simp [h a (List.mem_cons_self a t')]

theorem joinWith_cons (sep t : Str) (ts : List Str) (h : ts ≠ []) :
    joinWith sep (t :: ts) = t ++ sep ++ joinWith sep ts := by
  cases ts with
  | nil => exact absurd rfl h
  | cons b bs => rfl

theorem splitOnChar_joinWith (c : Char) (ts : List Str) (hne : ts ≠ [])
    (h : ∀ tok ∈ ts, ∀ a ∈ tok, ¬ a = c) :
    splitOnChar c (joinWith [c] ts) = ts := by
  induction ts with
  | nil => exact absurd rfl hne
  | cons t ts' ih =>
    cases ts' with
    | nil => exact splitOnChar_no_sep c t (h t (List.mem_cons_self t []))
    | cons t2 ts2 =>
      rw [joinWith_cons _ _ _ (by simp)]
      have e : t ++ [c] ++ joinWith [c] (t2 :: ts2) = t ++ c :: joinWith [c] (t2 :: ts2) := by
        simp
      rw [e, splitOnChar_sep c t _ (h t (List.mem_cons_self t _)),
        ih (by simp) fun tok htok => h tok (List.mem_cons_of_mem _ htok)]

theorem trimL_cons_of_not_ws (a : Char) (x : Str) (h : isWsChar a = false) :
    trimL (a :: x) = a :: x := by
  simp [trimL, List.dropWhile_cons, h]

theorem trimL_cons_of_ws (a : Char) (x : Str) (h : isWsChar a = true) :
    trimL (a :: x) = trimL x := by
  simp [trimL, List.dropWhile_cons, h]

theorem trimR_concat_of_not_ws (x : Str) (a : Char) (h : isWsChar a = false) :
    trimR (x ++ [a]) = x ++ [a] := by
  simp [trimR, trimL, List.dropWhile_cons, h]

theorem concat_decomp (t : Str) (h : t ≠ []) : ∃ q a, t = q ++ [a] ∧ a ∈ t := by
  induction t with
  | nil => exact absurd rfl h
  | cons x xs ih =>
    cases xs with
    | nil => exact ⟨[], x, by simp, by simp⟩
    | cons y ys =>
      obtain ⟨q, a, hqa, hmem⟩ := ih (by simp)
      exact ⟨x :: q, a, by rw [hqa]; rfl, List.mem_cons_of_mem _ hmem⟩

theorem joinWith_concat_decomp (sep : Str) (ts : List Str) (hne : ts ≠ [])
    (h1 : ∀ tok ∈ ts, tok ≠ []) :
    ∃ pre a tok, tok ∈ ts ∧ a ∈ tok ∧ joinWith sep ts = pre ++ [a] := by
  induction ts with
  | nil => exact absurd rfl hne
  | cons t ts' ih =>
    cases ts' with
    | nil =>
      obtain ⟨q, a, hqa, hmem⟩ := concat_decomp t (h1 t (List.mem_cons_self t []))
      exact ⟨q, a, t, List.mem_cons_self t [], hmem, hqa⟩
    | cons t2 ts2 =>
      obtain ⟨pre, a, tok, htok, ha, hj⟩ :=
        ih (by simp) fun tok htok => h1 tok (List.mem_cons_of_mem _ htok)
      refine ⟨t ++ sep ++ pre, a, tok, List.mem_cons_of_mem _ htok, ha, ?_⟩
      rw [joinWith_cons _ _ _ (by simp), hj]
      simp

theorem joinWith_ne_nil (sep : Str) (ts : List Str) (hne : ts ≠ [])
    (h1 : ∀ tok ∈ ts, tok ≠ []) : joinWith sep ts ≠ [] := by
  obtain ⟨pre, a, tok, _, _, hj⟩ := joinWith_concat_decomp sep ts hne h1
  rw [hj]
  simp

theorem trim_joinWith (ts : List Str) (hne : ts ≠ [])
    (h1 : ∀ tok ∈ ts, tok ≠ [])
    (h2 : ∀ tok ∈ ts, ∀ a ∈ tok, isWsChar a = false) :
    trim (joinWith [' '] ts) = joinWith [' '] ts := by
  have hL : trimL (joinWith [' '] ts) = joinWith [' '] ts := by
    cases ts with
    | nil => exact absurd rfl hne
    | cons t ts' =>
      have hth : t ≠ [] := h1 t (List.mem_cons_self t ts')
      obtain ⟨x, t'', ht⟩ : ∃ x t'', t = x :: t'' := by
        cases t with
        | nil => exact absurd rfl hth
        | cons a b => exact ⟨a, b, rfl⟩
      subst ht
      have hx : isWsChar x = false :=
        h2 _ (List.mem_cons_self _ ts') x (List.mem_cons_self x t'')
      cases ts' with
      | nil =>
        simp only [joinWith]
        exact trimL_cons_of_not_ws x t'' hx
      | cons t2 ts2 =>
        rw [joinWith_cons _ _ _ (by simp)]
        have e : (x :: t'') ++ [' '] ++ joinWith [' '] (t2 :: ts2)
            = x :: (t'' ++ [' '] ++ joinWith [' '] (t2 :: ts2)) := by simp
        rw [e]
        exact trimL_cons_of_not_ws _ _ hx
  have hR : trimR (joinWith [' '] ts) = joinWith [' '] ts := by
    obtain ⟨pre, a, tok, htok, ha, hj⟩ := joinWith_concat_decomp [' '] ts hne h1
    rw [hj]
    exact trimR_concat_of_not_ws pre a (h2 tok htok a ha)
  rw [trim, hL, hR]

theorem no_space_of_no_ws (tok : Str) (h : ∀ a ∈ tok, isWsChar a = false) :
    ∀ a ∈ tok, ¬ a = ' ' := by
  intro a ha heq
  have hws := h a ha
  rw [heq] at hws
  exact absurd hws (by decide)

theorem parseDocParam_mk (l t : Str) (cs : List Str)
    (h1 : ∀ tok ∈ l :: t :: cs, tok ≠ [])
    (h2 : ∀ tok ∈ l :: t :: cs, ∀ a ∈ tok, isWsChar a = false)
    (ht : recognizedTypes.contains t = true) :
    parseDocParam ("@param ".toList ++ joinWith [' '] (l :: t :: cs)) =
      { Label := l, Type' := t, Comment := joinWith [' '] cs, Default := [] } := by
  have e1 : "@param ".toList ++ joinWith [' '] (l :: t :: cs)
      = "@param".toList ++ (' ' :: joinWith [' '] (l :: t :: cs)) := by
    rw [(by decide : "@param ".toList = "@param".toList ++ [' '])]
    simp
  have e2 : replaceFirst "@param".toList [] ("@param".toList ++ (' ' :: joinWith [' '] (l :: t :: cs)))
      = ' ' :: joinWith [' '] (l :: t :: cs) := by
    rw [replaceFirst_append]
    rfl
  have e3 : trim (' ' :: joinWith [' '] (l :: t :: cs)) = joinWith [' '] (l :: t :: cs) := by
    have hj := trim_joinWith (l :: t :: cs) (by simp) h1 h2
    rw [trim] at hj ⊢
    rw [trimL_cons_of_ws _ _ (by decide)]
    exact hj
  rw [e1]
  unfold parseDocParam
  rw [e2, e3,
    splitOnChar_joinWith ' ' _ (by simp) fun tok htok => no_space_of_no_ws tok (h2 tok htok)]
  simp [str2Type, type2Str, ht]
  exact fun hmem => absurd (List.mem_of_elem_eq_true ht) hmem

theorem parseDocReturn_cons (x : Char) (xs : Str) :
    parseDocReturn (some (x :: xs)) =
      some { ReturnType :=
               type2Str (str2Type (splitOnChar ' ' (trim (replaceFirst "@returns".toList [] (x :: xs)))).head?)
             Return :=
               joinWith [' '] (splitOnChar ' ' (trim (replaceFirst "@returns".toList [] (x :: xs)))).tail } :=
  rfl

theorem parseDocReturn_mk (t : Str) (cs : List Str)
    (h1 : ∀ tok ∈ t :: cs, tok ≠ [])
    (h2 : ∀ tok ∈ t :: cs, ∀ a ∈ tok, isWsChar a = false)
    (ht : recognizedTypes.contains t = true) :
    parseDocReturn (some ("@returns ".toList ++ joinWith [' '] (t :: cs))) =
      some { ReturnType := t, Return := joinWith [' '] cs } := by
  have e0 : "@returns ".toList ++ joinWith [' '] (t :: cs)
      = '@' :: ("returns ".toList ++ joinWith [' '] (t :: cs)) := by
    rw [(by decide : "@returns ".toList = '@' :: "returns ".toList)]
    rfl
  have e1 : '@' :: ("returns ".toList ++ joinWith [' '] (t :: cs))
      = "@returns".toList ++ (' ' :: joinWith [' '] (t :: cs)) := by
    rw [(by decide : ("@returns".toList : Str) = '@' :: "returns".toList),
      (by decide : "returns ".toList = "returns".toList ++ [' '])]
    simp
  have e2 : replaceFirst "@returns".toList [] ("@returns".toList ++ (' ' :: joinWith [' '] (t :: cs)))
      = ' ' :: joinWith [' '] (t :: cs) := by
    rw [replaceFirst_append]
    rfl
  have e3 : trim (' ' :: joinWith [' '] (t :: cs)) = joinWith [' '] (t :: cs) := by
    have hj := trim_joinWith (t :: cs) (by simp) h1 h2
    rw [trim] at hj ⊢
    rw [trimL_cons_of_ws _ _ (by decide)]
    exact hj
  rw [e0, parseDocReturn_cons]
  rw [show ('@' :: ("returns ".toList ++ joinWith [' '] (t :: cs)) : Str)
      = "@returns".toList ++ (' ' :: joinWith [' '] (t :: cs)) from e1]
  rw [e2, e3,
    splitOnChar_joinWith ' ' _ (by simp) fun tok htok => no_space_of_no_ws tok (h2 tok htok)]
  simp [str2Type, type2Str, ht]
  exact fun hmem => absurd (List.mem_of_elem_eq_true ht) hmem

theorem serializeParam_mk (l t : Str) (cs : List Str) (h1 : ∀ tok ∈ cs, tok ≠ []) :
    serializeParam { Label := l, Type' := t, Comment := joinWith [' '] cs, Default := [] }
      = "@param ".toList ++ joinWith [' '] (l :: t :: cs) := by
  unfold serializeParam
  cases cs with
  | nil => rfl
  | cons c0 cs' =>
    have hj : (joinWith [' '] (c0 :: cs') == ([] : Str)) = false := by
      rw [beq_eq_false_iff_ne]
      exact joinWith_ne_nil _ _ (by simp) h1
    simp only [hj, Bool.false_eq_true, if_false]
    rfl

theorem serializeReturn_mk (t : Str) (cs : List Str) (h1 : ∀ tok ∈ cs, tok ≠ []) :
    serializeReturn { ReturnType := t, Return := joinWith [' '] cs }
      = "@returns ".toList ++ joinWith [' '] (t :: cs) := by
  unfold serializeReturn
  cases cs with
  | nil => rfl
  | cons c0 cs' =>
    have hj : (joinWith [' '] (c0 :: cs') == ([] : Str)) = false := by
      rw [beq_eq_false_iff_ne]
      exact joinWith_ne_nil _ _ (by simp) h1
    simp only [hj, Bool.false_eq_true, if_false]
    rfl

/-- C3 (amended): for a whitespace-normalized `@param` line and `@returns`
line whose tokens are nonempty, whitespace-free, and whose type token is
recognized by the normalization table, parsing recovers label, type and
comment tokens verbatim and re-serializing the parsed fields reproduces the
original line; the restriction to recognized type tokens is forced, because
an unrecognized type token re-serializes as the untyped sentinel. -/
theorem c3_roundtrip_recognized
    (l t : Str) (cs : List Str) (rt : Str) (rcs : List Str)
    (h1 : ∀ tok ∈ l :: t :: cs, tok ≠ [])
    (h2 : ∀ tok ∈ l :: t :: cs, ∀ a ∈ tok, isWsChar a = false)
    (ht : recognizedTypes.contains t = true)
    (hr1 : ∀ tok ∈ rt :: rcs, tok ≠ [])
    (hr2 : ∀ tok ∈ rt :: rcs, ∀ a ∈ tok, isWsChar a = false)
    (hrt : recognizedTypes.contains rt = true) :
    parseDocParam ("@param ".toList ++ joinWith [' '] (l :: t :: cs))
        = { Label := l, Type' := t, Comment := joinWith [' '] cs, Default := [] }
    ∧ serializeParam (parseDocParam ("@param ".toList ++ joinWith [' '] (l :: t :: cs)))
        = "@param ".toList ++ joinWith [' '] (l :: t :: cs)
    ∧ parseDocReturn (some ("@returns ".toList ++ joinWith [' '] (rt :: rcs)))
        = some { ReturnType := rt, Return := joinWith [' '] rcs }
    ∧ serializeReturn { ReturnType := rt, Return := joinWith [' '] rcs }
        = "@returns ".toList ++ joinWith [' '] (rt :: rcs) := by
  have hp := parseDocParam_mk l t cs h1 h2 ht
  have hcs : ∀ tok ∈ cs, tok ≠ [] :=
    fun tok htok => h1 tok (List.mem_cons_of_mem _ (List.mem_cons_of_mem _ htok))
  have hrcs : ∀ tok ∈ rcs, tok ≠ [] := fun tok htok => hr1 tok (List.mem_cons_of_mem _ htok)
  refine ⟨hp, ?_, parseDocReturn_mk rt rcs hr1 hr2 hrt, serializeReturn_mk rt rcs hrcs⟩
  rw [hp]
  exact serializeParam_mk l t cs hcs

/-- C3 witness: the spec's own example lines round-trip. -/
theorem c3_roundtrip_recognized_witness :
    parseDocParam ("@param ".toList ++ joinWith [' '] ["a".toList, "number".toList, "first".toList])
        = { Label := "a".toList, Type' := "number".toList, Comment := joinWith [' '] ["first".toList],
            Default := [] }
    ∧ serializeParam (parseDocParam
          ("@param ".toList ++ joinWith [' '] ["a".toList, "number".toList, "first".toList]))
        = "@param ".toList ++ joinWith [' '] ["a".toList, "number".toList, "first".toList]
    ∧ parseDocReturn (some ("@returns ".toList ++ joinWith [' '] ["number".toList, "sum".toList]))
        = some { ReturnType := "number".toList, Return := joinWith [' '] ["sum".toList] }
    ∧ serializeReturn { ReturnType := "number".toList, Return := joinWith [' '] ["sum".toList] }
        = "@returns ".toList ++ joinWith [' '] ["number".toList, "sum".toList] :=
  c3_roundtrip_recognized "a".toList "number".toList ["first".toList] "number".toList ["sum".toList]
    (by decide) (by decide) (by decide) (by decide) (by decide) (by decide)

/-- C3 counterexample: the claim as stated fails on a valid, whitespace-
normalized `@param` line whose type token is not in the normalization table:
the parsed type is the sentinel `None` and re-serialization does not recover
the original tokens. -/
theorem c3_counterexample :
    (parseDocParam "@param a foobar first".toList).Type' = "None".toList
    ∧ serializeParam (parseDocParam "@param a foobar first".toList)
        ≠ "@param a foobar first".toList := by
  constructor <;> decide

/-- C5: the signature-help builder yields a payload exactly when the match is
present, an identifier can be extracted from it, and a valid documentation
block is found in the retained window; an undocumented or malformed-doc
declaration yields an absent result (the builder is total, so absence is
never an error). -/
theorem c5_signature_only_with_doc (r : Option Str) (old : Option (List Str)) :
    (parseSignature r old).isSome
      ↔ ∃ step name doc, r = some step ∧ nameExec0 step = some name ∧ findDoc name old = some doc := by
  cases r with
  | none => simp [parseSignature]
  | some step =>
    cases h1 : nameExec0 step with
    | none => simp [parseSignature, h1]
    | some name =>
      cases h2 : findDoc name old with
      | none => simp [parseSignature, h1, h2]
      | some d => simp [parseSignature, h1, h2]

/-- C2 (amended): on a retrigger with a cached signature help, the identifier
is not re-resolved (the cached object is returned with its signature list and
active signature untouched) and the active-parameter index is recomputed as
the number of comma-separated segments between the opening parenthesis and
the cursor minus one — which equals the number of comma separators, not that
number minus one; e.g. two commas give index 2. -/
theorem c2_retrigger_comma_count (sigs : List ScriptSignature)
    (folders : Option (List WorkspaceFolder)) (fs : FileSys) (doc : Document)
    (posLine posChar : Nat) (line : Str) (h0 : SignatureHelp)
    (hline : doc.lines.get? posLine = some line)
    (hg1 : ¬ ((posChar : Int) < indexOfFrom '(' line 0))
    (hg2 : ¬ (indexOfFrom ')' line (indexOfFrom '(' line 0) < (posChar : Int))) :
    provideSignatureHelp sigs folders fs doc posLine posChar true (some h0)
      = some { h0 with activeParameter := countChar ',' (retriggerParaStr line posChar) } := by
  unfold provideSignatureHelp
  rw [hline]
  have hc : (decide ((posChar : Int) < indexOfFrom '(' line 0)
      || decide (indexOfFrom ')' line (indexOfFrom '(' line 0) < (posChar : Int))) = false := by
    rw [decide_eq_false hg1, decide_eq_false hg2]
    rfl
  simp only [hc, Bool.false_eq_true, if_false]
  rw [splitOnChar_length, Nat.add_sub_cancel]

/-- C2 witness: the amended theorem applied to the line `add(1,2,)` with the
cursor after the second comma. -/
theorem c2_retrigger_comma_count_witness :
    provideSignatureHelp [] none [] { lines := ["add(1,2,)".toList], fileName := [] } 0 8 true
        (some { activeSignature := 0, activeParameter := 0,
                signatures := [{ label := "add".toList, parameters := [] }] })
      = some { activeSignature := 0,
               activeParameter := countChar ',' (retriggerParaStr "add(1,2,)".toList 8),
               signatures := [{ label := "add".toList, parameters := [] }] } :=
  c2_retrigger_comma_count [] none [] { lines := ["add(1,2,)".toList], fileName := [] } 0 8
    "add(1,2,)".toList
    { activeSignature := 0, activeParameter := 0,
      signatures := [{ label := "add".toList, parameters := [] }] }
    (by decide) (by decide) (by decide)

/-- C2 counterexample: retriggering on `add(1,2,)` with the cursor after the
second comma (two comma separators typed) sets the active-parameter index to
2, not to 1 as the claim states. -/
theorem c2_counterexample :
    provideSignatureHelp [] none [] { lines := ["add(1,2,)".toList], fileName := [] } 0 8 true
        (some { activeSignature := 0, activeParameter := 0,
                signatures := [{ label := "add".toList, parameters := [] }] })
      = some { activeSignature := 0, activeParameter := 2,
               signatures := [{ label := "add".toList, parameters := [] }] }
    ∧ provideSignatureHelp [] none [] { lines := ["add(1,2,)".toList], fileName := [] } 0 8 true
        (some { activeSignature := 0, activeParameter := 0,
                signatures := [{ label := "add".toList, parameters := [] }] })
      ≠ some { activeSignature := 0, activeParameter := 1,
               signatures := [{ label := "add".toList, parameters := [] }] } := by
  constructor <;> decide

theorem windowPush_length_le (w : List Str) (cur : Str) (h : w.length ≤ 21) :
    (windowPush w cur).length ≤ 21 := by
  unfold windowPush
  by_cases h20 : w.length > 20
  · rw [if_pos h20]
    simp only [List.length_append, List.length_tail, List.length_cons, List.length_nil]
    omega
  · rw [if_neg h20]
    simp only [List.length_append, List.length_cons, List.length_nil]
    omega

theorem foldl_windowPush (ls : List Str) : ∀ w : List Str, w.length ≤ 21 →
    List.foldl windowPush w ls = (w ++ ls).drop (w.length + ls.length - 21) := by
  induction ls with
  | nil =>
    intro w hw
    have hz : w.length - 21 = 0 := by omega
    simp [hz]
  | cons l rest ih =>
    intro w hw
    rw [List.foldl_cons, ih _ (windowPush_length_le w l hw)]
    by_cases h20 : w.length > 20
    · have h21 : w.length = 21 := by omega
      obtain ⟨a, w', rfl⟩ : ∃ a w', w = a :: w' := by
        cases w with
        | nil => simp at h21
        | cons a w' => exact ⟨a, w', rfl⟩
      have hlen : w'.length = 20 := by simpa using h21
      have ewp : windowPush (a :: w') l = w' ++ [l] := by
        unfold windowPush
        rw [if_pos h20]
        rfl
      rw [ewp]
      have idx1 : (w' ++ [l]).length + rest.length - 21 = rest.length := by
        simp only [List.length_append, List.length_cons, List.length_nil, hlen]
        omega
      have idx2 : (a :: w').length + (l :: rest).length - 21 = rest.length + 1 := by
        simp only [List.length_cons, hlen]
        omega
      have el : (w' ++ [l]) ++ rest = w' ++ l :: rest := by simp
      have er : (a :: w') ++ l :: rest = a :: (w' ++ l :: rest) := rfl
      rw [idx1, idx2, el, er, List.drop_succ_cons]
    · have ewp : windowPush w l = w ++ [l] := by
        unfold windowPush
        rw [if_neg h20]
      rw [ewp]
      have el : (w ++ [l]) ++ rest = w ++ l :: rest := by simp
      have eidx : (w ++ [l]).length + rest.length - 21 = w.length + (l :: rest).length - 21 := by
        simp only [List.length_append, List.length_cons, List.length_nil]
        omega
      rw [el, eidx]

theorem cmpFileGo_window (keyword : Str) :
    ∀ (nb : List (Nat × Str)) (li : Nat) (old : List Str) (acc : List CompletionItem),
    (cmpFileGo keyword li old acc nb).2
      = List.foldl windowPush old (((nb.map Prod.snd).filter fun l => !(l == [])).map trim) := by
  intro nb
  induction nb with
  | nil => intro li old acc; rfl
  | cons p rest ih =>
    intro li old acc
    obtain ⟨no, ln⟩ := p
    by_cases hln : ln = []
    · subst hln
      have e : cmpFileGo keyword li old acc ((no, ([] : Str)) :: rest)
          = cmpFileGo keyword li old acc rest := rfl
      have hcond : (!(([] : Str) == [])) = false := rfl
      rw [e]
      simp only [List.map_cons, List.filter_cons, hcond, Bool.false_eq_true, if_false]
      exact ih li old acc
    · have hb : (ln == ([] : Str)) = false := by
        rw [beq_eq_false_iff_ne]
        exact hln
      cases hf : findDeclFrom declKeywords keyword (trim ln) li with
      | some trip =>
        obtain ⟨i, e, kw⟩ := trip
        simp only [cmpFileGo, hb, Bool.false_eq_true, if_false, hf, List.map_cons,
          List.filter_cons, Bool.not_false, if_true, List.foldl_cons]
        exact ih e (windowPush old (trim ln)) _
      | none =>
        simp only [cmpFileGo, hb, Bool.false_eq_true, if_false, hf, List.map_cons,
          List.filter_cons, Bool.not_false, if_true, List.foldl_cons]
        exact ih 0 (windowPush old (trim ln)) _

theorem numberFrom_map_snd (n : Nat) (ls : List Str) : (numberFrom n ls).map Prod.snd = ls := by
  induction ls generalizing n with
  | nil => rfl
  | cons l ls ih => simp [numberFrom, ih]

/-- C1 (amended): the shared trailing window of the file drivers evicts the
oldest line only once the buffer already holds more than 20 lines, so it
retains the last 21 lines, not the last 20: after feeding any sequence of
non-empty lines, the window accessible to the doc-comment search holds
exactly the last `min(n, 21)` trimmed lines (for 25 lines, the last 21; the
4 — not 5 — oldest are unrecoverable). -/
theorem c1_window_last21 (ls : List Str) (keyword : Str) (acc : List CompletionItem)
    (h : ∀ l ∈ ls, l ≠ []) :
    (cmpFileGo keyword 0 [] acc (numberFrom 0 ls)).2
      = (ls.map trim).drop (ls.length - 21) := by
  rw [cmpFileGo_window, numberFrom_map_snd]
  have hf : (ls.filter fun l => !(l == [])) = ls := by
    rw [List.filter_eq_self]
    intro a ha
    simpa using h a ha
  rw [hf, foldl_windowPush _ [] (by simp)]
  simp

/-- C1 witness: the amended theorem applied to 25 concrete non-empty lines. -/
theorem c1_window_last21_witness :
    (cmpFileGo "zzz".toList 0 [] [] (numberFrom 0 c1Lines)).2
      = (c1Lines.map trim).drop (c1Lines.length - 21) :=
  c1_window_last21 c1Lines "zzz".toList [] (by decide)

/-- C1 counterexample: after feeding 25 non-empty lines the retained window is
the last 21 lines, not the last 20 as the claim states — the 21st-from-last
line is still retained, so only 4 lines are unrecoverable. -/
theorem c1_counterexample :
    (cmpFileGo "zzz".toList 0 [] [] (numberFrom 0 c1Lines)).2 = c1Lines.drop 4
    ∧ (cmpFileGo "zzz".toList 0 [] [] (numberFrom 0 c1Lines)).2 ≠ c1Lines.drop 5 := by
  constructor <;> decide

theorem buildCmpItem_label (value name : Str) (doc : Option ScriptMethod) :
    (buildCmpItem value name doc).label = name := by
  unfold buildCmpItem
  repeat (first | rfl | split)

theorem buildCmpItem_documentation (value name : Str) (doc : Option ScriptMethod) :
    (buildCmpItem value name doc).documentation = doc.map ScriptMethod.Documentation := by
  unfold buildCmpItem
  repeat (first | rfl | split)

theorem parseCmpItemElem_nodup (v : Str) (acc : List CompletionItem) (old : Option (List Str))
    (h : (acc.map fun c => c.label).Nodup) :
    ((parseCmpItemElem v acc old).map fun c => c.label).Nodup := by
  unfold parseCmpItemElem
  cases hx : nameExec0 v with
  | none => exact h
  | some name =>
    cases hany : acc.any (fun cmp => cmp.label == name) with
    | true => simp only [hany, if_true]; exact h
    | false =>
      simp only [hany, Bool.false_eq_true, if_false]
      have hn : name ∉ acc.map fun c => c.label := by
        intro hm
        obtain ⟨c, hc, hcl⟩ := List.mem_map.mp hm
        have hfalse := List.any_eq_false.mp hany c hc
        exact hfalse (by simp [hcl])
      rw [List.map_append]
      simp [List.nodup_append, buildCmpItem_label, h, hn]

theorem foldlElems_nodup (old : Option (List Str)) :
    ∀ (arr : List (Option Str)) (acc : List CompletionItem),
    (acc.map fun c => c.label).Nodup →
    ((arr.foldl (fun a v? =>
        match v? with
        | some v => parseCmpItemElem v a old
        | none => a) acc).map fun c => c.label).Nodup := by
  intro arr
  induction arr with
  | nil => intro acc h; exact h
  | cons v? rest ih =>
    intro acc h
    rw [List.foldl_cons]
    cases v? with
    | none => exact ih _ h
    | some v => exact ih _ (parseCmpItemElem_nodup v acc old h)

theorem cmpTextGo_nodup (text keyword : Str) :
    ∀ (fuel li : Nat) (acc : List CompletionItem),
    (acc.map fun c => c.label).Nodup →
    ((cmpTextGo text keyword fuel li acc).map fun c => c.label).Nodup := by
  intro fuel
  induction fuel with
  | zero => intro li acc h; exact h
  | succ f ih =>
    intro li acc h
    cases hf : findDeclFrom declKeywords keyword text li with
    | none => simp only [cmpTextGo, hf]; exact h
    | some trip =>
      obtain ⟨i, e, kw⟩ := trip
      simp only [cmpTextGo, hf]
      exact ih _ _ (foldlElems_nodup none _ acc h)

/-- C4: the duplicate-label guard of `parseCmpItem` makes every completion
scan label-distinct: for every input text, keyword and label-distinct initial
accumulator, the accumulated completion list never contains two entries with
the same label. -/
theorem c4_no_duplicate_labels (text keyword : Str) (items : List CompletionItem)
    (h : (items.map fun c => c.label).Nodup) :
    ((getCompletionItemsFromText text keyword items).map fun c => c.label).Nodup :=
  cmpTextGo_nodup text keyword _ 0 items h

/-- C4 witness: scanning a text that declares `foo` twice yields exactly one
entry labelled `foo`. -/
theorem c4_no_duplicate_labels_witness :
    ((getCompletionItemsFromText dupText "foo".toList []).map fun c => c.label).Nodup
    ∧ (getCompletionItemsFromText dupText "foo".toList []).map (fun c => c.label)
        = ["foo".toList] :=
  ⟨c4_no_duplicate_labels dupText "foo".toList [] (by simp), by decide⟩

theorem nameExec0_keyword_none (kw : Str) (h : kw ∈ declKeywords) : nameExec0 kw = none := by
  simp only [declKeywords, List.mem_cons, List.not_mem_nil, or_false] at h
  rcases h with rfl | rfl | rfl <;> decide

/-- C9 (amended): a matched declaration with no valid doc-comment block in the
window (missing or malformed sentinels) still yields a completion entry built
from the declaration alone and never an error — but no descriptor is built at
all (`findDoc` yields nothing, and the entry carries no documentation), rather
than a descriptor with empty summary and the untyped return sentinel. -/
theorem c9_undocumented_builds_plain_entry (step name kw : Str) (old : Option (List Str))
    (acc : List CompletionItem)
    (hkw : kw ∈ declKeywords)
    (hname : nameExec0 step = some name)
    (hdoc : findDoc name old = none)
    (hnot : acc.any (fun c => c.label == name) = false) :
    parseCmpItem (some [some step, some kw, none]) acc old
        = acc ++ [buildCmpItem step name none]
    ∧ (buildCmpItem step name none).documentation = none
    ∧ (buildCmpItem step name none).label = name := by
  have e1 : parseCmpItemElem step acc old = acc ++ [buildCmpItem step name none] := by
    unfold parseCmpItemElem
    simp only [hname, hnot, Bool.false_eq_true, if_false, hdoc]
  have e2 : parseCmpItemElem kw (acc ++ [buildCmpItem step name none]) old
      = acc ++ [buildCmpItem step name none] := by
    unfold parseCmpItemElem
    simp only [nameExec0_keyword_none kw hkw]
  refine ⟨?_, ?_, buildCmpItem_label step name none⟩
  · unfold parseCmpItem
    dsimp only [List.foldl_cons, List.foldl_nil]
    rw [e1, e2]
  · rw [buildCmpItem_documentation]
    rfl

/-- C9 witness: the amended theorem at a concrete undocumented declaration. -/
theorem c9_undocumented_builds_plain_entry_witness :
    parseCmpItem (some [some "def foo(a, b):".toList, some "def".toList, none]) [] (some [])
        = [] ++ [buildCmpItem "def foo(a, b):".toList "foo".toList none]
    ∧ (buildCmpItem "def foo(a, b):".toList "foo".toList none).documentation = none
    ∧ (buildCmpItem "def foo(a, b):".toList "foo".toList none).label = "foo".toList :=
  c9_undocumented_builds_plain_entry "def foo(a, b):".toList "foo".toList "def".toList
    (some []) [] (by decide) (by decide) (by decide) (by decide)

/-- C9 counterexample: with no preceding doc block the claim's promised
descriptor (empty summary, untyped return sentinel) is not produced — no
descriptor exists at all, and the completion entry built for the declaration
carries no documentation. -/
theorem c9_counterexample :
    findDoc "foo".toList (some []) = none
    ∧ (parseCmpItem (some [some "def foo(a, b):".toList, some "def".toList, none]) [] (some [])).map
        (fun c => c.documentation) = [none] := by
  constructor <;> decide

theorem findDeclFrom_none_of_zero (kws : List Str) (keyword s : Str)
    (h : findDeclFrom kws keyword s 0 = none) (li : Nat) :
    findDeclFrom kws keyword s li = none := by
  rw [findDeclFrom, List.findSome?_eq_none_iff] at h ⊢
  intro i hi
  apply h
  rw [List.mem_range'_1] at hi ⊢
  omega

theorem sigFileGo_none (keyword : Str) :
    ∀ (nb : List (Nat × Str)) (old : List Str),
    (∀ p ∈ nb, findDeclFrom declKeywordDefOnly keyword (trim p.2) 0 = none) →
    sigFileGo keyword 0 old nb = none := by
  intro nb
  induction nb with
  | nil => intro old h; rfl
  | cons p rest ih =>
    intro old h
    obtain ⟨no, ln⟩ := p
    by_cases hln : ln = []
    · subst hln
      have e : sigFileGo keyword 0 old ((no, ([] : Str)) :: rest) = sigFileGo keyword 0 old rest :=
        rfl
      rw [e]
      exact ih old fun q hq => h q (List.mem_cons_of_mem _ hq)
    · have hb : (ln == ([] : Str)) = false := by
        rw [beq_eq_false_iff_ne]
        exact hln
      have hd := h (no, ln) (List.mem_cons_self _ _)
      simp only [sigFileGo, hb, Bool.false_eq_true, if_false, hd]
      exact ih _ fun q hq => h q (List.mem_cons_of_mem _ hq)

/-- C10: the signature-help file scan matches only `def` declarations — when
no line of the file matches the `def`-only pattern for the keyword (in
particular when the keyword is declared only via `thread` or `global`), the
scan yields no signature help, doc block or not. -/
theorem c10_signature_def_only (fs : FileSys) (fileName keyword : Str)
    (h : ∀ p ∈ readLines fs fileName, findDeclFrom declKeywordDefOnly keyword (trim p.2) 0 = none) :
    getSignatureFromFile fs fileName keyword = none :=
  sigFileGo_none keyword _ [] h

/-- C10 witness: a doc-commented `thread` declaration yields no signature
help from the file scan, while the hover scan of the same file (whose
pattern includes `thread`) does produce a result. -/
theorem c10_signature_def_only_witness :
    getSignatureFromFile [("f.script".toList, some (docBlockAdd ++ ["thread add():".toList]))]
        "f.script".toList "add".toList = none
    ∧ (getHoverFromFile [("f.script".toList, some (docBlockAdd ++ ["thread add():".toList]))]
        "f.script".toList "add".toList).isSome = true :=
  ⟨c10_signature_def_only _ _ _ (by decide), by decide⟩

/-- C6: one unreadable file in a 3-file workspace (the second) contributes an
empty result and does not abort the scan — the hover lookup still returns the
first result among the readable files 1 and 3, and the location scan still
returns the accumulated locations of files 1 and 3. -/
theorem c6_unreadable_file_skipped (fsPath n1 n2 n3 : Str) (c1 c3 : List Str)
    (keyword explored : Str)
    (hk1 : wsFileKeep explored n1 = true)
    (hk2 : wsFileKeep explored n2 = true)
    (hk3 : wsFileKeep explored n3 = true)
    (h12 : (fullPath ⟨fsPath, [n1, n2, n3]⟩ n1 == fullPath ⟨fsPath, [n1, n2, n3]⟩ n2) = false) :
    getHoverFromFile
        [(fullPath ⟨fsPath, [n1, n2, n3]⟩ n1, some c1),
         (fullPath ⟨fsPath, [n1, n2, n3]⟩ n2, none),
         (fullPath ⟨fsPath, [n1, n2, n3]⟩ n3, some c3)]
        (fullPath ⟨fsPath, [n1, n2, n3]⟩ n2) keyword = none
    ∧ getHoverFromWorkspace
        [(fullPath ⟨fsPath, [n1, n2, n3]⟩ n1, some c1),
         (fullPath ⟨fsPath, [n1, n2, n3]⟩ n2, none),
         (fullPath ⟨fsPath, [n1, n2, n3]⟩ n3, some c3)]
        ⟨fsPath, [n1, n2, n3]⟩ keyword explored
      = (match getHoverFromFile
            [(fullPath ⟨fsPath, [n1, n2, n3]⟩ n1, some c1),
             (fullPath ⟨fsPath, [n1, n2, n3]⟩ n2, none),
             (fullPath ⟨fsPath, [n1, n2, n3]⟩ n3, some c3)]
            (fullPath ⟨fsPath, [n1, n2, n3]⟩ n1) keyword with
         | some h => some h
         | none => getHoverFromFile
            [(fullPath ⟨fsPath, [n1, n2, n3]⟩ n1, some c1),
             (fullPath ⟨fsPath, [n1, n2, n3]⟩ n2, none),
             (fullPath ⟨fsPath, [n1, n2, n3]⟩ n3, some c3)]
            (fullPath ⟨fsPath, [n1, n2, n3]⟩ n3) keyword)
    ∧ getLocationFromWorkspace
        [(fullPath ⟨fsPath, [n1, n2, n3]⟩ n1, some c1),
         (fullPath ⟨fsPath, [n1, n2, n3]⟩ n2, none),
         (fullPath ⟨fsPath, [n1, n2, n3]⟩ n3, some c3)]
        ⟨fsPath, [n1, n2, n3]⟩ keyword explored
      = getLocationFromFile
          [(fullPath ⟨fsPath, [n1, n2, n3]⟩ n1, some c1),
           (fullPath ⟨fsPath, [n1, n2, n3]⟩ n2, none),
           (fullPath ⟨fsPath, [n1, n2, n3]⟩ n3, some c3)]
          (fullPath ⟨fsPath, [n1, n2, n3]⟩ n1) keyword
        ++ getLocationFromFile
            [(fullPath ⟨fsPath, [n1, n2, n3]⟩ n1, some c1),
             (fullPath ⟨fsPath, [n1, n2, n3]⟩ n2, none),
             (fullPath ⟨fsPath, [n1, n2, n3]⟩ n3, some c3)]
            (fullPath ⟨fsPath, [n1, n2, n3]⟩ n3) keyword := by
  set folder : WorkspaceFolder := ⟨fsPath, [n1, n2, n3]⟩ with hfold
  set p1 := fullPath folder n1 with hp1
  set p2 := fullPath folder n2 with hp2
  set p3 := fullPath folder n3 with hp3
  set fs : FileSys := [(p1, some c1), (p2, none), (p3, some c3)] with hfs
  have hw : wsFiles folder explored = [p1, p2, p3] := by
    unfold wsFiles
    simp [hfold, List.filter_cons, hk1, hk2, hk3]
  have hr2 : readLines fs p2 = [] := by
    unfold readLines
    simp [hfs, List.find?_cons, h12, beq_self_eq_true]
  have hB : getHoverFromFile fs p2 keyword = none := by
    rw [getHoverFromFile, hr2]
    rfl
  refine ⟨hB, ?_, ?_⟩
  · unfold getHoverFromWorkspace
    rw [hw]
    cases hh1 : getHoverFromFile fs p1 keyword with
    | some h => simp [firstSome, hh1]
    | none =>
      simp [firstSome, hh1, hB]
      cases getHoverFromFile fs p3 keyword <;> rfl
  · unfold getLocationFromWorkspace
    rw [hw]
    have hL2 : getLocationFromFile fs p2 keyword = [] := by
      rw [getLocationFromFile, hr2]
      rfl
    simp [List.foldl_cons, List.foldl_nil, hL2]

/-- C6 witness: a concrete 3-file workspace whose middle file is unreadable;
files 1 and 3 still contribute, and the hover comes from file 3. -/
theorem c6_unreadable_file_skipped_witness :
    getHoverFromFile
        [(fullPath ⟨"w".toList, ["a.script".toList, "b.script".toList, "c.script".toList]⟩
            "a.script".toList, some [['x']]),
         (fullPath ⟨"w".toList, ["a.script".toList, "b.script".toList, "c.script".toList]⟩
            "b.script".toList, none),
         (fullPath ⟨"w".toList, ["a.script".toList, "b.script".toList, "c.script".toList]⟩
            "c.script".toList, some (docBlockAdd ++ ["def add(a, b):".toList]))]
        (fullPath ⟨"w".toList, ["a.script".toList, "b.script".toList, "c.script".toList]⟩
          "b.script".toList) "add".toList = none
    ∧ (getHoverFromWorkspace
        [(fullPath ⟨"w".toList, ["a.script".toList, "b.script".toList, "c.script".toList]⟩
            "a.script".toList, some [['x']]),
         (fullPath ⟨"w".toList, ["a.script".toList, "b.script".toList, "c.script".toList]⟩
            "b.script".toList, none),
         (fullPath ⟨"w".toList, ["a.script".toList, "b.script".toList, "c.script".toList]⟩
            "c.script".toList, some (docBlockAdd ++ ["def add(a, b):".toList]))]
        ⟨"w".toList, ["a.script".toList, "b.script".toList, "c.script".toList]⟩
        "add".toList "q/d.script".toList).isSome = true := by
  refine ⟨(c6_unreadable_file_skipped "w".toList "a.script".toList "b.script".toList
    "c.script".toList [['x']] (docBlockAdd ++ ["def add(a, b):".toList]) "add".toList
    "q/d.script".toList (by decide) (by decide) (by decide) (by decide)).1, by decide⟩

theorem findDeclFrom_nil (keyword : Str) : findDeclFrom declKeywords keyword [] 0 = none := by
  simp [findDeclFrom, declHeadAt, boundaryAt, declKeywords, leads, List.range']

theorem numberFrom_mem_snd (ls : List Str) :
    ∀ (n : Nat) (p : Nat × Str), p ∈ numberFrom n ls → p.2 ∈ ls := by
  induction ls with
  | nil => intro n p hp; simp [numberFrom] at hp
  | cons l rest ih =>
    intro n p hp
    rw [numberFrom, List.mem_cons] at hp
    rcases hp with rfl | hp
    · exact List.mem_cons_self _ _
    · exact List.mem_cons_of_mem _ (ih (n + 1) p hp)

theorem locFileGo_none (keyword fileName : Str) :
    ∀ (nb : List (Nat × Str)) (mli nli : Nat),
    (∀ p ∈ nb, findDeclFrom declKeywords keyword p.2 0 = none) →
    locFileGo keyword fileName mli nli nb = [] := by
  intro nb
  induction nb with
  | nil => intro mli nli h; rfl
  | cons p rest ih =>
    intro mli nli h
    obtain ⟨no, ln⟩ := p
    by_cases hln : ln = []
    · subst hln
      have e : locFileGo keyword fileName mli nli ((no, ([] : Str)) :: rest)
          = locFileGo keyword fileName mli nli rest := rfl
      rw [e]
      exact ih mli nli fun q hq => h q (List.mem_cons_of_mem _ hq)
    · have hb : (ln == ([] : Str)) = false := by
        rw [beq_eq_false_iff_ne]
        exact hln
      have hd := findDeclFrom_none_of_zero _ _ _ (h (no, ln) (List.mem_cons_self _ _)) mli
      simp only [locFileGo, hb, Bool.false_eq_true, if_false, hd]
      exact ih 0 nli fun q hq => h q (List.mem_cons_of_mem _ hq)

theorem locFileGo_single (keyword fileName dl : Str) (post : List Str)
    (i e ns ne : Nat) (kw : Str)
    (hpost : ∀ l ∈ post, findDeclFrom declKeywords keyword l 0 = none)
    (hd : findDeclFrom declKeywords keyword dl 0 = some (i, e, kw))
    (hn : findNameFrom (extract dl i e) 0 = some (ns, ne)) :
    ∀ (pre : List Str) (n0 : Nat),
    (∀ l ∈ pre, findDeclFrom declKeywords keyword l 0 = none) →
    locFileGo keyword fileName 0 0 (numberFrom n0 (pre ++ dl :: post))
      = [{ uri := fileName, line := n0 + pre.length, character := ns }] := by
  intro pre
  induction pre with
  | nil =>
    intro n0 _
    have hdl : dl ≠ [] := by
      intro hnil
      rw [hnil, findDeclFrom_nil] at hd
      exact Option.noConfusion hd
    have hb : (dl == ([] : Str)) = false := by
      rw [beq_eq_false_iff_ne]
      exact hdl
    show locFileGo keyword fileName 0 0 ((n0, dl) :: numberFrom (n0 + 1) post) = _
    simp only [locFileGo, hb, Bool.false_eq_true, if_false, hd, hn]
    rw [locFileGo_none keyword fileName (numberFrom (n0 + 1) post) e ne
      fun q hq => hpost q.2 (numberFrom_mem_snd post (n0 + 1) q hq)]
    simp
  | cons l pre' ih =>
    intro n0 h
    have hrec : locFileGo keyword fileName 0 0 (numberFrom (n0 + 1) (pre' ++ dl :: post))
        = [{ uri := fileName, line := (n0 + 1) + pre'.length, character := ns }] :=
      ih (n0 + 1) fun q hq => h q (List.mem_cons_of_mem _ hq)
    have hline : (n0 + 1) + pre'.length = n0 + (l :: pre').length := by
      simp only [List.length_cons]
      omega
    by_cases hln : l = []
    · subst hln
      show locFileGo keyword fileName 0 0
        ((n0, ([] : Str)) :: numberFrom (n0 + 1) (pre' ++ dl :: post)) = _
      have e : locFileGo keyword fileName 0 0
          ((n0, ([] : Str)) :: numberFrom (n0 + 1) (pre' ++ dl :: post))
          = locFileGo keyword fileName 0 0 (numberFrom (n0 + 1) (pre' ++ dl :: post)) := rfl
      rw [e, hrec, hline]
    · have hb : (l == ([] : Str)) = false := by
        rw [beq_eq_false_iff_ne]
        exact hln
      have hd0 := h l (List.mem_cons_self _ _)
      show locFileGo keyword fileName 0 0
        ((n0, l) :: numberFrom (n0 + 1) (pre' ++ dl :: post)) = _
      simp only [locFileGo, hb, Bool.false_eq_true, if_false, hd0]
      rw [hrec, hline]

/-- C8 (amended): in a 3-file workspace where only file 2 declares the keyword
(once), the location scan accumulates in file order and returns exactly one
record pointing at that declaration's line and at the column offset of the
identifier within the matched declaration text (`nameReg.index` is relative
to the match, which starts at the declaration keyword — it equals the in-line
column only when the declaration starts at column 0). -/
theorem c8_single_location (fsPath n1 n2 n3 : Str) (c1 c3 pre post : List Str) (dl : Str)
    (keyword explored : Str) (i e ns ne : Nat) (kw : Str)
    (hk1 : wsFileKeep explored n1 = true)
    (hk2 : wsFileKeep explored n2 = true)
    (hk3 : wsFileKeep explored n3 = true)
    (h12 : (fullPath ⟨fsPath, [n1, n2, n3]⟩ n1 == fullPath ⟨fsPath, [n1, n2, n3]⟩ n2) = false)
    (h13 : (fullPath ⟨fsPath, [n1, n2, n3]⟩ n1 == fullPath ⟨fsPath, [n1, n2, n3]⟩ n3) = false)
    (h23 : (fullPath ⟨fsPath, [n1, n2, n3]⟩ n2 == fullPath ⟨fsPath, [n1, n2, n3]⟩ n3) = false)
    (hc1 : ∀ l ∈ c1, findDeclFrom declKeywords keyword l 0 = none)
    (hc3 : ∀ l ∈ c3, findDeclFrom declKeywords keyword l 0 = none)
    (hpre : ∀ l ∈ pre, findDeclFrom declKeywords keyword l 0 = none)
    (hpost : ∀ l ∈ post, findDeclFrom declKeywords keyword l 0 = none)
    (hd : findDeclFrom declKeywords keyword dl 0 = some (i, e, kw))
    (hn : findNameFrom (extract dl i e) 0 = some (ns, ne)) :
    getLocationFromWorkspace
        [(fullPath ⟨fsPath, [n1, n2, n3]⟩ n1, some c1),
         (fullPath ⟨fsPath, [n1, n2, n3]⟩ n2, some (pre ++ dl :: post)),
         (fullPath ⟨fsPath, [n1, n2, n3]⟩ n3, some c3)]
        ⟨fsPath, [n1, n2, n3]⟩ keyword explored
      = [{ uri := fullPath ⟨fsPath, [n1, n2, n3]⟩ n2, line := pre.length, character := ns }] := by
  set folder : WorkspaceFolder := ⟨fsPath, [n1, n2, n3]⟩ with hfold
  set p1 := fullPath folder n1 with hp1
  set p2 := fullPath folder n2 with hp2
  set p3 := fullPath folder n3 with hp3
  set fs : FileSys := [(p1, some c1), (p2, some (pre ++ dl :: post)), (p3, some c3)] with hfs
  have hw : wsFiles folder explored = [p1, p2, p3] := by
    unfold wsFiles
    simp [hfold, List.filter_cons, hk1, hk2, hk3]
  have hr1 : readLines fs p1 = numberFrom 0 c1 := by
    unfold readLines
    simp [hfs, List.find?_cons, beq_self_eq_true]
  have hr2 : readLines fs p2 = numberFrom 0 (pre ++ dl :: post) := by
    unfold readLines
    simp [hfs, List.find?_cons, h12, beq_self_eq_true]
  have hr3 : readLines fs p3 = numberFrom 0 c3 := by
    unfold readLines
    simp [hfs, List.find?_cons, h13, h23, beq_self_eq_true]
  have hL1 : getLocationFromFile fs p1 keyword = [] := by
    rw [getLocationFromFile, hr1]
    exact locFileGo_none keyword p1 _ 0 0
      fun q hq => hc1 q.2 (numberFrom_mem_snd c1 0 q hq)
  have hL3 : getLocationFromFile fs p3 keyword = [] := by
    rw [getLocationFromFile, hr3]
    exact locFileGo_none keyword p3 _ 0 0
      fun q hq => hc3 q.2 (numberFrom_mem_snd c3 0 q hq)
  have hL2 : getLocationFromFile fs p2 keyword
      = [{ uri := p2, line := pre.length, character := ns }] := by
    rw [getLocationFromFile, hr2]
    have := locFileGo_single keyword p2 dl post i e ns ne kw hpost hd hn pre 0 hpre
    simpa using this
  unfold getLocationFromWorkspace
  rw [hw]
  simp [List.foldl_cons, List.foldl_nil, hL1, hL2, hL3]

/-- C8 witness: the amended theorem at a concrete workspace whose second file
holds the single, indented declaration `  def move(x):`. -/
theorem c8_single_location_witness :
    getLocationFromWorkspace
        [(fullPath ⟨"w".toList, ["a.script".toList, "b.script".toList, "c.script".toList]⟩
            "a.script".toList, some [['x']]),
         (fullPath ⟨"w".toList, ["a.script".toList, "b.script".toList, "c.script".toList]⟩
            "b.script".toList, some ([] ++ "  def move(x):".toList :: [])),
         (fullPath ⟨"w".toList, ["a.script".toList, "b.script".toList, "c.script".toList]⟩
            "c.script".toList, some [['y']])]
        ⟨"w".toList, ["a.script".toList, "b.script".toList, "c.script".toList]⟩
        "move".toList "q/d.script".toList
      = [{ uri := fullPath ⟨"w".toList, ["a.script".toList, "b.script".toList, "c.script".toList]⟩
             "b.script".toList,
           line := List.length ([] : List Str), character := 4 }] :=
  c8_single_location "w".toList "a.script".toList "b.script".toList "c.script".toList
    [['x']] [['y']] [] [] "  def move(x):".toList "move".toList "q/d.script".toList
    2 14 4 8 "def".toList
    (by decide) (by decide) (by decide) (by decide) (by decide) (by decide)
    (by decide) (by decide) (by decide) (by decide) (by decide) (by decide)

/-- C8 counterexample: for the indented declaration `  def move(x):` the
returned column is 4 — the offset of `move` inside the matched text — while
the identifier's column offset within the line is 6, so the claim's
"column offset of the identifier within that line" fails. -/
theorem c8_counterexample :
    getLocationFromWorkspace
        [("w\\a.script".toList, some [['x']]),
         ("w\\b.script".toList, some ["  def move(x):".toList]),
         ("w\\c.script".toList, some [['y']])]
        ⟨"w".toList, ["a.script".toList, "b.script".toList, "c.script".toList]⟩
        "move".toList "q/d.script".toList
      = [{ uri := "w\\b.script".toList, line := 0, character := 4 }]
    ∧ findNameFrom "  def move(x):".toList 0 = some (6, 10)
    ∧ getLocationFromWorkspace
        [("w\\a.script".toList, some [['x']]),
         ("w\\b.script".toList, some ["  def move(x):".toList]),
         ("w\\c.script".toList, some [['y']])]
        ⟨"w".toList, ["a.script".toList, "b.script".toList, "c.script".toList]⟩
        "move".toList "q/d.script".toList
      ≠ [{ uri := "w\\b.script".toList, line := 0, character := 6 }] := by
  refine ⟨by decide, by decide, by decide⟩

/-- C7: on a fresh (non-retrigger) trigger with a well-formed parenthesis span
and an extractable word, resolution short-circuits in order: a built-in
catalog hit returns that signature with its active indices reset to 0,
independently of document and workspace; otherwise a document-text hit is
returned, independently of the workspace; only when both miss are the
workspace folders tried in registration order via `firstSome`. -/
theorem c7_fresh_resolution_order (sigs : List ScriptSignature)
    (folders : List WorkspaceFolder) (fs : FileSys) (doc : Document)
    (posLine posChar : Nat) (line : Str) (cached : Option SignatureHelp) (ws we : Nat)
    (hline : doc.lines.get? posLine = some line)
    (hg1 : ¬ ((posChar : Int) < indexOfFrom '(' line 0))
    (hg2 : ¬ (indexOfFrom ')' line (indexOfFrom '(' line 0) < (posChar : Int)))
    (hpl : 1 ≤ indexOfFrom '(' line 0)
    (hw : wordRangeAt line (indexOfFrom '(' line 0 - 1).toNat = some (ws, we)) :
    (∀ m, sigs.find? (fun sig => sig.Name == extract line ws we) = some m →
        provideSignatureHelp sigs (some folders) fs doc posLine posChar false cached
          = some { m.Item with activeParameter := 0, activeSignature := 0 })
    ∧ (sigs.find? (fun sig => sig.Name == extract line ws we) = none →
        ∀ s, getSignatureFromDocument doc (extract line ws we) = some s →
          provideSignatureHelp sigs (some folders) fs doc posLine posChar false cached = some s)
    ∧ (sigs.find? (fun sig => sig.Name == extract line ws we) = none →
        getSignatureFromDocument doc (extract line ws we) = none →
          provideSignatureHelp sigs (some folders) fs doc posLine posChar false cached
            = firstSome
                (fun fold => getSignatureFromWorkspace fs fold (extract line ws we) doc.fileName)
                folders) := by
  have hc : (decide ((posChar : Int) < indexOfFrom '(' line 0)
      || decide (indexOfFrom ')' line (indexOfFrom '(' line 0) < (posChar : Int))) = false := by
    rw [decide_eq_false hg1, decide_eq_false hg2]
    rfl
  have hneg : ¬ (indexOfFrom '(' line 0 - 1 < 0) := by omega
  have hred : provideSignatureHelp sigs (some folders) fs doc posLine posChar false cached
      = (match sigs.find? (fun sig => sig.Name == extract line ws we) with
         | some matched => some { matched.Item with activeParameter := 0, activeSignature := 0 }
         | none =>
           match getSignatureFromDocument doc (extract line ws we) with
           | some s => some s
           | none =>
             firstSome
               (fun fold => getSignatureFromWorkspace fs fold (extract line ws we) doc.fileName)
               folders) := by
    unfold provideSignatureHelp
    rw [hline]
    simp only [hc, Bool.false_eq_true, if_false]
    cases cached <;> simp only [hneg, if_false, hw]
  refine ⟨?_, ?_, ?_⟩
  · intro m hm
    rw [hred, hm]
  · intro hm s hs
    rw [hred, hm, hs]
  · intro hm hs
    rw [hred, hm, hs]

/-- C7 witness: a fresh trigger on `add()` with `add` in the built-in catalog
returns the catalog signature with its active indices reset to 0 (the cached
active parameter had been 5), regardless of document or workspace contents. -/
theorem c7_fresh_resolution_order_witness :
    provideSignatureHelp
        [{ Name := "add".toList,
           Item := { activeSignature := 0, activeParameter := 5,
                     signatures := [{ label := "addsig".toList, parameters := [] }] } }]
        (some []) [] { lines := ["add()".toList], fileName := "cur".toList } 0 4 false none
      = some { activeSignature := 0, activeParameter := 0,
               signatures := [{ label := "addsig".toList, parameters := [] }] } := by
  exact (c7_fresh_resolution_order
    [{ Name := "add".toList,
       Item := { activeSignature := 0, activeParameter := 5,
                 signatures := [{ label := "addsig".toList, parameters := [] }] } }]
    [] [] { lines := ["add()".toList], fileName := "cur".toList } 0 4 "add()".toList none 0 3
    (by decide) (by decide) (by decide) (by decide) (by decide)).1
    { Name := "add".toList,
      Item := { activeSignature := 0, activeParameter := 5,
                signatures := [{ label := "addsig".toList, parameters := [] }] } }
    (by decide)

end URScript
